import Mathlib

/-!
Verification of the MP4 box-construction core (src/src/box.ts of the
mp4-muxer repository).

The box-construction functions are shallowly embedded from the TypeScript
source. Byte-primitive encoders (u8, u16, u24, u32, u64, ascii, fixed-point
encoders, the timescale-rescaling function, the matrix encoder and the
global-timescale constant) live in misc.ts / muxer.ts, which are not part
of the given sources; they are modelled from the specification (section 6,
Required primitive collaborators).

Fallible constructions are embedded with Option: a TypeScript expression
that dereferences an absent field (and hence throws) is modelled as none,
and a falsy child dropped by the external serializer is modelled by
dropping it from the children list (specification sections 4.5 and 7).
-/

namespace Mp4Box

/-- Modelled from the spec: big-endian unsigned 1-byte integer encoder. -/
def u8 (v : Nat) : List Nat := [v % 256]

/-- Modelled from the spec: big-endian unsigned 2-byte integer encoder. -/
def u16 (v : Nat) : List Nat := [v / 256 % 256, v % 256]

/-- Modelled from the spec: big-endian signed 2-byte integer encoder; the
byte layout coincides with the unsigned one for the wrapped value. -/
def i16 (v : Nat) : List Nat := [v / 256 % 256, v % 256]

/-- Modelled from the spec: big-endian unsigned 3-byte integer encoder. -/
def u24 (v : Nat) : List Nat := [v / 65536 % 256, v / 256 % 256, v % 256]

/-- Modelled from the spec: big-endian unsigned 4-byte integer encoder. -/
def u32 (v : Nat) : List Nat :=
  [v / 16777216 % 256, v / 65536 % 256, v / 256 % 256, v % 256]

/-- Modelled from the spec: big-endian unsigned 8-byte integer encoder. -/
def u64 (v : Nat) : List Nat :=
  [v / 72057594037927936 % 256, v / 281474976710656 % 256,
   v / 1099511627776 % 256, v / 4294967296 % 256,
   v / 16777216 % 256, v / 65536 % 256, v / 256 % 256, v % 256]

/-- Modelled from the spec: 16.16 fixed-point encoder (natural inputs). -/
def fixed_16_16 (v : Nat) : List Nat := u32 (v * 65536)

/-- Modelled from the spec: 8.8 fixed-point encoder (natural inputs). -/
def fixed_8_8 (v : Nat) : List Nat := u16 (v * 256)

/-- Modelled from the spec: ASCII tag encoder mapping each character of the
tag to its code point. -/
def ascii (s : String) : List Nat := s.toList.map Char.toNat

/-- Modelled from the spec: the fixed global timescale constant used for
movie-level durations. -/
def GLOBAL_TIMESCALE : Nat := 1000

/-- Modelled from the spec: timescale-rescaling function converting a
duration into the given integer timescale. -/
def intoTimescale (time timescale : Nat) : Nat := time * timescale

/-- Modelled from the spec: the identity-matrix constant, as nine raw
32-bit words (16.16 entries, 2.30 in the last column). -/
def IDENTITY_MATRIX : List Nat :=
  [65536, 0, 0, 0, 65536, 0, 0, 0, 1073741824]

/-- Modelled from the spec: 3 by 3 transform-matrix byte encoder. -/
def matrixToBytes (m : List Nat) : List Nat := (m.map u32).flatten

/-- Embeds the last helper of misc.ts: the final element of a sequence,
which is undefined (here none) for the empty sequence. -/
def last (l : List α) : Option α := l.getLast?

/-- One media sample of a track: timestamp, duration, byte size and kind
(the string key marks a key frame, delta marks a delta frame). -/
structure Sample where
  timestamp : Nat
  duration : Nat
  size : Nat
  type : String
  deriving DecidableEq, Repr

instance : Inhabited Sample := ⟨⟨0, 0, 0, "delta"⟩⟩

/-- One run of the pre-compacted time-to-sample table. -/
structure TimeToSampleEntry where
  sampleCount : Nat
  sampleDelta : Nat
  deriving DecidableEq, Repr

/-- One run of the compactly coded sample-to-chunk table. -/
structure SampleToChunkEntry where
  firstChunk : Nat
  samplesPerChunk : Nat
  deriving DecidableEq, Repr

/-- One finalized chunk: its byte offset in the output and its size. -/
structure Chunk where
  offset : Nat
  size : Nat
  deriving DecidableEq, Repr

/-- The video or audio variant of the track metadata. -/
inductive TrackInfo where
  | video (width height rotation : Nat) (codec : String)
  | audio (numberOfChannels sampleRate : Nat) (codec : String)
  deriving DecidableEq, Repr

def TrackInfo.codec : TrackInfo → String
  | .video _ _ _ c => c
  | .audio _ _ c => c

def TrackInfo.width : TrackInfo → Nat
  | .video w _ _ _ => w
  | .audio _ _ _ => 0

def TrackInfo.height : TrackInfo → Nat
  | .video _ h _ _ => h
  | .audio _ _ _ => 0

def TrackInfo.numberOfChannels : TrackInfo → Nat
  | .video _ _ _ _ => 0
  | .audio n _ _ => n

def TrackInfo.sampleRate : TrackInfo → Nat
  | .video _ _ _ _ => 0
  | .audio _ r _ => r

/-- The track snapshot consumed by box construction. -/
structure Track where
  id : Nat
  timescale : Nat
  samples : List Sample
  timeToSampleTable : List TimeToSampleEntry
  compactlyCodedChunkTable : List SampleToChunkEntry
  finalizedChunks : List Chunk
  codecPrivate : Option (List Nat)
  info : TrackInfo
  deriving DecidableEq, Repr

/-- The Box node produced by this core (box.ts, interface Box). -/
inductive Box where
  | mk (type : String) (contents : Option (List Nat)) (children : List Box)
       (size : Option Nat) (largeSize : Bool)

def Box.type : Box → String
  | .mk t _ _ _ _ => t

def Box.contents : Box → Option (List Nat)
  | .mk _ c _ _ _ => c

def Box.children : Box → List Box
  | .mk _ _ ch _ _ => ch

def Box.size : Box → Option Nat
  | .mk _ _ _ s _ => s

def Box.largeSize : Box → Bool
  | .mk _ _ _ _ l => l

/-- The box builder of box.ts; nested groupings of numbers are modelled as
already-flattened byte lists. -/
def box (type : String) (contents : Option (List Nat)) (children : List Box) :
    Box :=
  .mk type contents children none false

/-- A FullBox always starts with a version byte, followed by three flag
bytes (box.ts, fullBox). -/
def fullBox (type : String) (version flags : Nat) (contents : List Nat)
    (children : List Box) : Box :=
  box type (some (u8 version ++ u24 flags ++ contents)) children

/-- File Type Compatibility Box (box.ts, ftyp). -/
def ftyp (holdsHevc : Bool) : Box :=
  if holdsHevc then
    box "ftyp"
      (some (ascii "isom" ++ u32 0 ++ ascii "iso4" ++ ascii "hvc1")) []
  else
    box "ftyp"
      (some (ascii "isom" ++ u32 0 ++ ascii "isom" ++ ascii "avc1" ++
        ascii "mp41")) []

/-- The end of the final sample of a track: last timestamp plus duration,
zero when there is no sample (box.ts reads this subterm only for tracks
whose sample list is nonempty). -/
def trackEnd (x : Track) : Nat :=
  ((last x.samples).map (fun s => s.timestamp + s.duration)).getD 0

/-- The base of the movie duration computed by mvhd: the maximum, floored
at zero, of the track ends over the tracks that have samples. -/
def maxTrackEnd (tracks : List Track) : Nat :=
  ((tracks.filter (fun x => 0 < x.samples.length)).map trackEnd).foldr max 0

/-- The maximum track id, floored at zero (box.ts computes the plain
maximum, which coincides on nonempty track lists). -/
def maxTrackId (tracks : List Track) : Nat :=
  (tracks.map (fun x => x.id)).foldr max 0

/-- Movie Header Box (box.ts, mvhd). -/
def mvhd (creationTime : Nat) (tracks : List Track) : Box :=
  let duration := intoTimescale (maxTrackEnd tracks) GLOBAL_TIMESCALE
  let nextTrackId := maxTrackId tracks + 1
  fullBox "mvhd" 0 0
    (u32 creationTime ++ u32 creationTime ++ u32 GLOBAL_TIMESCALE ++
     u32 duration ++ fixed_16_16 1 ++ fixed_8_8 1 ++ List.replicate 10 0 ++
     matrixToBytes IDENTITY_MATRIX ++ List.replicate 24 0 ++
     u32 nextTrackId) []

/-- AVC Configuration Box (box.ts, avcC): none models the falsy value the
source produces when codecPrivate is absent. -/
def avcC (track : Track) : Option Box :=
  track.codecPrivate.map fun cp => box "avcC" (some cp) []

/-- HEVC Configuration Box (box.ts, hvcC). -/
def hvcC (track : Track) : Option Box :=
  track.codecPrivate.map fun cp => box "hvcC" (some cp) []

/-- VP9 Configuration Box (box.ts, vpcC). -/
def vpcC (track : Track) : Option Box :=
  track.codecPrivate.map fun cp => box "vpcC" (some cp) []

/-- AV1 Configuration Box (box.ts, av1C). -/
def av1C (track : Track) : Option Box :=
  track.codecPrivate.map fun cp => box "av1C" (some cp) []

/-- MPEG-4 Elementary Stream Descriptor Box (box.ts, esds). The source
dereferences codecPrivate unconditionally, so the result is none (a thrown
error, no defined result) when codecPrivate is absent. -/
def esds (track : Track) : Option Box :=
  track.codecPrivate.map fun cp =>
    fullBox "esds" 0 0
      (u32 0x03808080 ++ u8 (0x20 + cp.length) ++ u16 1 ++ u8 0x00 ++
       u32 0x04808080 ++ u8 (0x12 + cp.length) ++ u8 0x40 ++ u8 0x15 ++
       u24 0 ++ u32 0x0001FC17 ++ u32 0x0001FC17 ++ u32 0x05808080 ++
       u8 cp.length ++ cp ++ u32 0x06808080 ++ u8 0x01 ++ u8 0x02) []

/-- Opus Specific Box (box.ts, dOps). -/
def dOps (track : Track) : Box :=
  box "dOps"
    (some (u8 0 ++ u8 track.info.numberOfChannels ++ u16 3840 ++
      u32 track.info.sampleRate ++ fixed_8_8 0 ++ u8 0)) []

/-- Video codec identifier to sample-description box name (box.ts,
VIDEO_CODEC_TO_BOX_NAME); none models a lookup miss. -/
def VIDEO_CODEC_TO_BOX_NAME : String → Option String
  | "avc" => some "avc1"
  | "hevc" => some "hvc1"
  | "vp9" => some "vp09"
  | "av1" => some "av01"
  | _ => none

/-- Video codec identifier to configuration-box builder (box.ts,
VIDEO_CODEC_TO_CONFIGURATION_BOX); a lookup miss (none) makes the call
throw in the source, so consumers propagate none. -/
def VIDEO_CODEC_TO_CONFIGURATION_BOX :
    String → Option (Track → Option Box)
  | "avc" => some avcC
  | "hevc" => some hvcC
  | "vp9" => some vpcC
  | "av1" => some av1C
  | _ => none

/-- Audio codec identifier to sample-description box name (box.ts,
AUDIO_CODEC_TO_BOX_NAME). -/
def AUDIO_CODEC_TO_BOX_NAME : String → Option String
  | "aac" => some "mp4a"
  | "opus" => some "Opus"
  | _ => none

/-- Audio codec identifier to configuration-box builder (box.ts,
AUDIO_CODEC_TO_CONFIGURATION_BOX). The aac builder itself returns an
Option because esds throws when codecPrivate is absent. -/
def AUDIO_CODEC_TO_CONFIGURATION_BOX :
    String → Option (Track → Option Box)
  | "aac" => some esds
  | "opus" => some (fun t => some (dOps t))
  | _ => none

/-- Video Sample Description Box (box.ts, videoSampleDescription). The
configuration child is dropped when the builder returned a falsy value,
matching the external serializer that skips falsy children. -/
def videoSampleDescription (compressionType : String) (track : Track) :
    Option Box :=
  (VIDEO_CODEC_TO_CONFIGURATION_BOX track.info.codec).map fun configBox =>
    box compressionType
      (some (List.replicate 6 0 ++ u16 1 ++ u16 0 ++ u16 0 ++
        List.replicate 12 0 ++ u16 track.info.width ++
        u16 track.info.height ++ u32 0x00480000 ++ u32 0x00480000 ++
        u32 0 ++ u16 1 ++ List.replicate 32 0 ++ u16 0x0018 ++
        i16 0xffff))
      (configBox track).toList

/-- Sound Sample Description Box (box.ts, soundSampleDescription); none
when the configuration-box builder has no defined result. -/
def soundSampleDescription (compressionType : String) (track : Track) :
    Option Box :=
  (AUDIO_CODEC_TO_CONFIGURATION_BOX track.info.codec).bind fun configBox =>
    (configBox track).map fun c =>
      box compressionType
        (some (List.replicate 6 0 ++ u16 1 ++ u16 0 ++ u16 0 ++ u32 0 ++
          u16 track.info.numberOfChannels ++ u16 16 ++ u16 0 ++ u16 0 ++
          fixed_16_16 track.info.sampleRate)) [c]

/-- Sample Description Box (box.ts, stsd); the box-name lookup miss of the
source yields an undefined box type, which never reaches a defined
result because the configuration lookup throws first. -/
def stsd (track : Track) : Option Box :=
  (match track.info with
   | .video _ _ _ c =>
       videoSampleDescription ((VIDEO_CODEC_TO_BOX_NAME c).getD "undefined")
         track
   | .audio _ _ c =>
       soundSampleDescription ((AUDIO_CODEC_TO_BOX_NAME c).getD "undefined")
         track).map
    fun d => fullBox "stsd" 0 0 (u32 1) [d]

/-- Time-To-Sample Box (box.ts, stts). -/
def stts (track : Track) : Box :=
  fullBox "stts" 0 0
    (u32 track.timeToSampleTable.length ++
     (track.timeToSampleTable.map fun x =>
       u32 x.sampleCount ++ u32 x.sampleDelta).flatten) []

/-- The enumerated key samples filtered from the sample list (the
keySamples local of box.ts, stss). -/
def keySamples (track : Track) : List (Nat × Sample) :=
  track.samples.enum.filter fun p => p.2.type == "key"

/-- The positions of the key samples in the sample sequence. -/
def keyFrameIndices (track : Track) : List Nat :=
  (keySamples track).map Prod.fst

/-- Sync Sample Box (box.ts, stss): none (no box emitted) when every
sample is a key frame. -/
def stss (track : Track) : Option Box :=
  if track.samples.all (fun x => x.type == "key") then none
  else
    some (fullBox "stss" 0 0
      (u32 (keySamples track).length ++
       ((keySamples track).map fun p => u32 (p.1 + 1)).flatten) [])

/-- Sample-To-Chunk Box (box.ts, stsc). -/
def stsc (track : Track) : Box :=
  fullBox "stsc" 0 0
    (u32 track.compactlyCodedChunkTable.length ++
     (track.compactlyCodedChunkTable.map fun x =>
       u32 x.firstChunk ++ u32 x.samplesPerChunk ++ u32 1).flatten) []

/-- Sample Size Box (box.ts, stsz). -/
def stsz (track : Track) : Box :=
  fullBox "stsz" 0 0
    (u32 0 ++ u32 track.samples.length ++
     (track.samples.map fun x => u32 x.size).flatten) []

/-- Chunk Offset Box (box.ts, stco): emits a co64 box when the offset of
the last finalized chunk reaches two to the thirty-second power, an stco
box otherwise. -/
def stco (track : Track) : Box :=
  if 0 < track.finalizedChunks.length ∧
      2 ^ 32 ≤ ((last track.finalizedChunks).map Chunk.offset).getD 0 then
    fullBox "co64" 0 0
      (u32 track.finalizedChunks.length ++
       (track.finalizedChunks.map fun x => u64 x.offset).flatten) []
  else
    fullBox "stco" 0 0
      (u32 track.finalizedChunks.length ++
       (track.finalizedChunks.map fun x => u32 x.offset).flatten) []

/-- Sample Table Box (box.ts, stbl); the null stss result of the source is
skipped by the serializer, modelled by dropping it from the children. -/
def stbl (track : Track) : Option Box :=
  (stsd track).map fun sd =>
    box "stbl" none
      ([sd, stts track] ++ (stss track).toList ++
       [stsc track, stsz track, stco track])

/-- The n bytes of the content of a box starting at the given offset. -/
def contentSlice (b : Box) (off n : Nat) : List Nat :=
  ((b.contents.getD []).drop off).take n

/-- Slicing a concatenation at the length of its prefix recovers the
middle part. -/
theorem slice_middle (p m s : List Nat) :
    ((p ++ (m ++ s)).drop p.length).take m.length = m := by
  rw [List.drop_left, List.take_left]

/-- Slicing a byte list decomposed into prefix, middle and suffix at the
prefix length recovers the middle part. -/
theorem slice_of_decomp {xs p m s : List Nat} {off n : Nat}
    (hx : xs = p ++ (m ++ s)) (hp : p.length = off) (hm : m.length = n) :
    (xs.drop off).take n = m := by
  subst hx; subst hp; subst hm; rw [List.drop_left, List.take_left]

/-- Dropping the prefix of a decomposed byte list leaves the rest. -/
theorem drop_of_decomp {xs p r : List Nat} {off : Nat}
    (hx : xs = p ++ r) (hp : p.length = off) : xs.drop off = r := by
  subst hx; subst hp; exact List.drop_left p r

/-- A concrete Opus audio track used to instantiate proved theorems. -/
def opusTestTrack : Track :=
  ⟨1, 48000, [], [], [], [], none, .audio 2 48000 "opus"⟩

/-- A concrete AAC audio track with a two-byte audio specific config. -/
def aacTestTrack : Track :=
  ⟨2, 44100, [], [], [], [], some [18, 16], .audio 2 44100 "aac"⟩

/-- A fold with max is bounded by any upper bound of the list. -/
theorem foldr_max_le {l : List Nat} {m : Nat} (h : ∀ x ∈ l, x ≤ m) :
    l.foldr max 0 ≤ m := by
  induction l with
  | nil => exact Nat.zero_le m
  | cons a l ih =>
      exact max_le (h a (List.mem_cons_self a l))
        (ih fun x hx => h x (List.mem_cons_of_mem a hx))

/-- Every member of a list is bounded by the fold with max. -/
theorem le_foldr_max {l : List Nat} {x : Nat} (h : x ∈ l) :
    x ≤ l.foldr max 0 := by
  induction l with
  | nil => cases h
  | cons a l ih =>
      rcases List.mem_cons.mp h with h | h
      · exact h ▸ le_max_left a (l.foldr max 0)
      · exact le_trans (ih h) (le_max_right a (l.foldr max 0))

/-- The fold with max computes the maximum of a list that attains its
upper bound. -/
theorem foldr_max_eq {l : List Nat} {m : Nat} (h1 : ∀ x ∈ l, x ≤ m)
    (h2 : m ∈ l) : l.foldr max 0 = m :=
  le_antisymm (foldr_max_le h1) (le_foldr_max h2)

/-- A concrete video track with one sample ending at time 5. -/
def avcTestTrack : Track :=
  ⟨1, 30, [⟨2, 3, 100, "key"⟩], [], [], [], some [1, 2, 3],
   .video 640 480 0 "avc"⟩

/-- A concrete track with id 3 and no samples. -/
def idThreeTrack : Track :=
  ⟨3, 1000, [], [], [], [], none, .audio 2 48000 "opus"⟩

/-- A concrete track with id 2 and no samples. -/
def idTwoTrack : Track :=
  ⟨2, 1000, [], [], [], [], none, .audio 2 48000 "opus"⟩

/-- C5: for every non-empty track list, the mvhd duration field holds the
maximum over all tracks having at least one sample of the last sample
timestamp plus duration, converted into the fixed global timescale, and
holds zero when no track has any samples. -/
theorem mvhd_duration_field (ct : Nat) (tracks : List Track)
    (hne : tracks ≠ []) :
    (∀ M, (∀ t ∈ tracks, t.samples ≠ [] → trackEnd t ≤ M) →
       (∃ t ∈ tracks, t.samples ≠ [] ∧ trackEnd t = M) →
       contentSlice (mvhd ct tracks) 16 4 =
         u32 (intoTimescale M GLOBAL_TIMESCALE)) ∧
    ((∀ t ∈ tracks, t.samples = []) →
       contentSlice (mvhd ct tracks) 16 4 = u32 0) := by
  have hx : (mvhd ct tracks).contents.getD [] =
      (u8 0 ++ u24 0 ++ u32 ct ++ u32 ct ++ u32 GLOBAL_TIMESCALE) ++
      (u32 (intoTimescale (maxTrackEnd tracks) GLOBAL_TIMESCALE) ++
       ((fixed_16_16 1 ++ fixed_8_8 1 ++ List.replicate 10 0 ++
         matrixToBytes IDENTITY_MATRIX ++ List.replicate 24 0) ++
        u32 (maxTrackId tracks + 1))) := by
    simp [mvhd, fullBox, box, Box.contents]
  have hdur : contentSlice (mvhd ct tracks) 16 4 =
      u32 (intoTimescale (maxTrackEnd tracks) GLOBAL_TIMESCALE) := by
    unfold contentSlice
    rw [hx]
    exact slice_of_decomp rfl (by rfl) (by rfl)
  constructor
  · intro M h1 h2
    have hM : maxTrackEnd tracks = M := by
      apply foldr_max_eq
      · intro x hmem
        obtain ⟨u, hu, rfl⟩ := List.mem_map.mp hmem
        rw [List.mem_filter] at hu
        refine h1 u hu.1 ?_
        have := of_decide_eq_true hu.2
        exact List.length_pos.mp this
      · obtain ⟨u, hu, hune, huend⟩ := h2
        refine huend ▸ List.mem_map.mpr ⟨u, List.mem_filter.mpr ⟨hu, ?_⟩, rfl⟩
        exact decide_eq_true (List.length_pos.mpr hune)
    rw [hdur, hM]
  · intro hall
    have hM : maxTrackEnd tracks = 0 := by
      unfold maxTrackEnd
      rw [List.filter_eq_nil_iff.mpr]
      · rfl
      · intro u hu
        simp [hall u hu]
    rw [hdur, hM]
    rfl

/-- C5 witness: instantiating the mvhd duration theorem at a single-track
list whose last sample ends at time 5; the field holds 5000, the value in
the global timescale of 1000. -/
theorem mvhd_duration_field_witness :
    contentSlice (mvhd 0 [avcTestTrack]) 16 4 = [0, 0, 19, 136] := by
  refine (((mvhd_duration_field 0 [avcTestTrack]
    (List.cons_ne_nil _ _)).1 5 ?_ ?_)).trans (by decide)
  · intro u hu hne
    rcases List.mem_singleton.mp hu with rfl
    decide
  · exact ⟨avcTestTrack, List.mem_singleton.mpr rfl, by decide, by decide⟩

/-- C6: for every track list containing at least one track, the mvhd
nextTrackId field holds the maximum track id across all tracks plus 1. -/
theorem mvhd_next_track_id (ct : Nat) (tracks : List Track) (m : Nat)
    (h1 : ∀ t ∈ tracks, t.id ≤ m) (h2 : ∃ t ∈ tracks, t.id = m) :
    contentSlice (mvhd ct tracks) 96 4 = u32 (m + 1) := by
  have hx : (mvhd ct tracks).contents.getD [] =
      (u8 0 ++ u24 0 ++ u32 ct ++ u32 ct ++ u32 GLOBAL_TIMESCALE ++
       u32 (intoTimescale (maxTrackEnd tracks) GLOBAL_TIMESCALE) ++
       fixed_16_16 1 ++ fixed_8_8 1 ++ List.replicate 10 0 ++
       matrixToBytes IDENTITY_MATRIX ++ List.replicate 24 0) ++
      (u32 (maxTrackId tracks + 1) ++ []) := by
    simp [mvhd, fullBox, box, Box.contents]
  have hid : maxTrackId tracks = m := by
    apply foldr_max_eq
    · intro x hmem
      obtain ⟨u, hu, rfl⟩ := List.mem_map.mp hmem
      exact h1 u hu
    · obtain ⟨u, hu, hm⟩ := h2
      exact hm ▸ List.mem_map.mpr ⟨u, hu, rfl⟩
  unfold contentSlice
  rw [hx, hid]
  exact slice_of_decomp rfl (by rfl) (by rfl)

/-- C6 witness: instantiating the nextTrackId theorem at a track list with
ids 1, 3 and 2; the field holds 4. -/
theorem mvhd_next_track_id_witness :
    contentSlice (mvhd 0 [avcTestTrack, idThreeTrack, idTwoTrack]) 96 4 =
      [0, 0, 0, 4] :=
  (mvhd_next_track_id 0 [avcTestTrack, idThreeTrack, idTwoTrack] 3
    (by decide) (by decide)).trans (by decide)

/-- A concrete track whose finalized chunk offsets are not monotone: the
first offset is at the 32-bit boundary while the last offset is small. -/
def decreasingChunksTrack : Track :=
  ⟨4, 1000, [], [], [], [⟨4294967296, 1⟩, ⟨5, 1⟩], none,
   .video 640 480 0 "avc"⟩

/-- C1 counterexample: a track whose maximum finalized-chunk offset
reaches two to the thirty-second power while the last chunk offset is
small still produces an stco box with 32-bit entries, refuting the claim
that the width decision follows the maximum offset. -/
theorem stco_max_offset_claim_false :
    2 ^ 32 ≤ (decreasingChunksTrack.finalizedChunks.map
      (fun c => c.offset)).foldr max 0 ∧
    (stco decreasingChunksTrack).type = "stco" ∧
    (stco decreasingChunksTrack).type ≠ "co64" ∧
    ((stco decreasingChunksTrack).contents.getD []).length = 4 + 4 + 4 * 2
    := by decide

/-- C1 (amended): the chunk-offset box inspects only finalizedChunks and
decides its width by the offset of the last finalized chunk: when that
offset is below two to the thirty-second power it produces an stco box
with one 32-bit offset per finalized chunk, otherwise a co64 box with one
64-bit offset per finalized chunk; in both cases the entry-count field
holds the length of finalizedChunks and the table is never mixed-width. -/
theorem stco_width_selection (t : Track) :
    (t.finalizedChunks = [] →
       (stco t).type = "stco" ∧
       contentSlice (stco t) 4 4 = u32 0 ∧
       ((stco t).contents.getD []).drop 8 = []) ∧
    (∀ c, t.finalizedChunks.getLast? = some c →
       (2 ^ 32 ≤ c.offset →
          (stco t).type = "co64" ∧
          contentSlice (stco t) 4 4 = u32 t.finalizedChunks.length ∧
          ((stco t).contents.getD []).drop 8 =
            (t.finalizedChunks.map fun x => u64 x.offset).flatten ∧
          ∀ x : Chunk, (u64 x.offset).length = 8) ∧
       (c.offset < 2 ^ 32 →
          (stco t).type = "stco" ∧
          contentSlice (stco t) 4 4 = u32 t.finalizedChunks.length ∧
          ((stco t).contents.getD []).drop 8 =
            (t.finalizedChunks.map fun x => u32 x.offset).flatten ∧
          ∀ x : Chunk, (u32 x.offset).length = 4)) := by
  constructor
  · intro hfc
    have hneg : ¬ (0 < t.finalizedChunks.length ∧
        2 ^ 32 ≤ ((last t.finalizedChunks).map Chunk.offset).getD 0) := by
      rw [hfc]
      simp
    unfold stco
    rw [if_neg hneg, hfc]
    exact ⟨rfl, slice_of_decomp rfl (by rfl) (by rfl), rfl⟩
  · intro c hlast
    have hnn : t.finalizedChunks ≠ [] := by
      intro h
      rw [h] at hlast
      cases hlast
    have hlen : 0 < t.finalizedChunks.length := List.length_pos.mpr hnn
    have hoffv : ((last t.finalizedChunks).map Chunk.offset).getD 0 =
        c.offset := by
      unfold last
      rw [hlast]
      rfl
    constructor
    · intro hoff
      have hcond : 0 < t.finalizedChunks.length ∧
          2 ^ 32 ≤ ((last t.finalizedChunks).map Chunk.offset).getD 0 :=
        ⟨hlen, hoffv ▸ hoff⟩
      unfold stco
      rw [if_pos hcond]
      exact ⟨rfl, slice_of_decomp rfl (by rfl) (by rfl), rfl, fun x => rfl⟩
    · intro hoff
      have hneg : ¬ (0 < t.finalizedChunks.length ∧
          2 ^ 32 ≤ ((last t.finalizedChunks).map Chunk.offset).getD 0) := by
        rw [hoffv]
        exact fun hcond => absurd hcond.2 (not_le.mpr hoff)
      unfold stco
      rw [if_neg hneg]
      exact ⟨rfl, slice_of_decomp rfl (by rfl) (by rfl), rfl, fun x => rfl⟩

/-- A concrete track whose two finalized chunks end beyond the 32-bit
boundary. -/
def largeChunksTrack : Track :=
  ⟨5, 1000, [], [], [], [⟨10, 1⟩, ⟨4294967300, 1⟩], none,
   .video 640 480 0 "avc"⟩

/-- C1 witness: instantiating the amended chunk-offset theorem at a track
whose last chunk offset exceeds the 32-bit boundary, producing a co64 box
with two 64-bit entries, and at a track with no finalized chunks. -/
theorem stco_width_selection_witness :
    ((stco largeChunksTrack).type = "co64" ∧
      contentSlice (stco largeChunksTrack) 4 4 = [0, 0, 0, 2] ∧
      ((stco largeChunksTrack).contents.getD []).length = 4 + 4 + 8 * 2) ∧
    (stco opusTestTrack).type = "stco" := by
  have h := ((stco_width_selection largeChunksTrack).2 ⟨4294967300, 1⟩
    (by decide)).1 (by decide)
  have h0 := (stco_width_selection opusTestTrack).1 (by decide)
  exact ⟨⟨h.1, (h.2.1).trans (by decide), by decide⟩, h0.1⟩

/-- C7: for every boolean input, ftyp produces a file-type box whose
content is exactly the major brand isom, minor version 0 and compatible
brands iso4 and hvc1 when the input is true, and the major brand isom,
minor version 0 and compatible brands isom, avc1 and mp41 when the input
is false, with no other content and no children in either case. -/
theorem ftyp_brand_selection :
    ((ftyp true).type = "ftyp" ∧
      (ftyp true).contents =
        some [0x69, 0x73, 0x6f, 0x6d, 0, 0, 0, 0,
              0x69, 0x73, 0x6f, 0x34, 0x68, 0x76, 0x63, 0x31] ∧
      (ftyp true).children = []) ∧
    ((ftyp false).type = "ftyp" ∧
      (ftyp false).contents =
        some [0x69, 0x73, 0x6f, 0x6d, 0, 0, 0, 0,
              0x69, 0x73, 0x6f, 0x6d, 0x61, 0x76, 0x63, 0x31,
              0x6d, 0x70, 0x34, 0x31] ∧
      (ftyp false).children = []) :=
  ⟨⟨rfl, rfl, rfl⟩, ⟨rfl, rfl, rfl⟩⟩

/-- C9: for every track, the stts entry-count field holds the length of
the time-to-sample table and the table bytes are the verbatim big-endian
re-encoding of each sampleCount and sampleDelta pair in input order; the
stsc entry-count field holds the length of the compactly coded chunk
table and each entry is the verbatim firstChunk and samplesPerChunk pair
in input order followed by the fixed sample-description index 1. -/
theorem stts_stsc_verbatim (t : Track) :
    contentSlice (stts t) 4 4 = u32 t.timeToSampleTable.length ∧
    ((stts t).contents.getD []).drop 8 =
      (t.timeToSampleTable.map fun x =>
        u32 x.sampleCount ++ u32 x.sampleDelta).flatten ∧
    contentSlice (stsc t) 4 4 = u32 t.compactlyCodedChunkTable.length ∧
    ((stsc t).contents.getD []).drop 8 =
      (t.compactlyCodedChunkTable.map fun x =>
        u32 x.firstChunk ++ u32 x.samplesPerChunk ++ u32 1).flatten :=
  ⟨rfl, rfl, rfl, rfl⟩

/-- C8: for every Opus audio track, the dOps content is, in order, the
version byte 0, the output channel count from the track info, the 16-bit
pre-skip 3840 (bytes 15 and 0), the sample rate as a 32-bit big-endian
integer, the 8.8 fixed-point output gain 0 (two zero bytes) and the
channel mapping family byte 0. -/
theorem dOps_layout (t : Track) (ch sr : Nat) (c : String)
    (hi : t.info = .audio ch sr c) :
    (dOps t).type = "dOps" ∧
    (dOps t).contents =
      some ([0] ++ u8 ch ++ [15, 0] ++ u32 sr ++ [0, 0] ++ [0]) := by
  rcases t with ⟨tid, ts, samples, tts, cct, fc, cp, info⟩
  cases hi
  exact ⟨rfl, rfl⟩

/-- C8 witness: instantiating the dOps layout theorem at a concrete Opus
track with two channels and sample rate 48000. -/
theorem dOps_layout_witness :
    (dOps opusTestTrack).contents =
      some [0, 2, 15, 0, 0, 0, 187, 128, 0, 0, 0] :=
  ((dOps_layout opusTestTrack 2 48000 "opus" rfl).2).trans (by decide)

/-- C4: for every AAC audio track whose codecPrivate has byte length L,
the esds content holds the object-descriptor length byte encoding
0x20 + L at offset 8, the ES-descriptor length byte encoding 0x12 + L at
offset 16, and the raw codecPrivate bytes verbatim at offset 35 inside
the decoder-config tag. -/
theorem esds_descriptor_lengths (t : Track) (cp : List Nat)
    (hcp : t.codecPrivate = some cp) :
    ∃ b, esds t = some b ∧
      contentSlice b 8 1 = u8 (0x20 + cp.length) ∧
      contentSlice b 16 1 = u8 (0x12 + cp.length) ∧
      contentSlice b 35 cp.length = cp := by
  refine ⟨fullBox "esds" 0 0
      (u32 0x03808080 ++ u8 (0x20 + cp.length) ++ u16 1 ++ u8 0x00 ++
       u32 0x04808080 ++ u8 (0x12 + cp.length) ++ u8 0x40 ++ u8 0x15 ++
       u24 0 ++ u32 0x0001FC17 ++ u32 0x0001FC17 ++ u32 0x05808080 ++
       u8 cp.length ++ cp ++ u32 0x06808080 ++ u8 0x01 ++ u8 0x02) [],
    by unfold esds; rw [hcp]; rfl, ?_, ?_, ?_⟩
  all_goals
    have hx : ((fullBox "esds" 0 0
        (u32 0x03808080 ++ u8 (0x20 + cp.length) ++ u16 1 ++ u8 0x00 ++
         u32 0x04808080 ++ u8 (0x12 + cp.length) ++ u8 0x40 ++ u8 0x15 ++
         u24 0 ++ u32 0x0001FC17 ++ u32 0x0001FC17 ++ u32 0x05808080 ++
         u8 cp.length ++ cp ++ u32 0x06808080 ++ u8 0x01 ++ u8 0x02)
        []).contents.getD []) =
        ([0, 0, 0, 0, 3, 128, 128, 128] ++
         ([(0x20 + cp.length) % 256] ++
          ([0, 1, 0, 4, 128, 128, 128] ++
           ([(0x12 + cp.length) % 256] ++
            ([0x40, 0x15, 0, 0, 0, 0, 1, 0xFC, 0x17, 0, 1, 0xFC, 0x17,
              5, 128, 128, 128, cp.length % 256] ++
             (cp ++ [6, 128, 128, 128, 1, 2])))))) := by
      simp [fullBox, box, Box.contents, u8, u16, u24, u32]
  · unfold contentSlice
    rw [hx]
    rfl
  · unfold contentSlice
    rw [hx]
    rfl
  · unfold contentSlice
    rw [hx]
    exact slice_of_decomp rfl (by rfl) rfl
      (p := [0, 0, 0, 0, 3, 128, 128, 128] ++
        ([(0x20 + cp.length) % 256] ++
         ([0, 1, 0, 4, 128, 128, 128] ++
          ([(0x12 + cp.length) % 256] ++
           [0x40, 0x15, 0, 0, 0, 0, 1, 0xFC, 0x17, 0, 1, 0xFC, 0x17,
            5, 128, 128, 128, cp.length % 256]))))
      (m := cp) (s := [6, 128, 128, 128, 1, 2])

/-- C4 witness: instantiating the esds length-byte theorem at a concrete
AAC track whose codecPrivate is the two bytes 18 and 16. -/
theorem esds_descriptor_lengths_witness :
    ∃ b, esds aacTestTrack = some b ∧
      contentSlice b 8 1 = [0x22] ∧
      contentSlice b 16 1 = [0x14] ∧
      contentSlice b 35 2 = [18, 16] := by
  obtain ⟨b, hb, h8, h16, h35⟩ :=
    esds_descriptor_lengths aacTestTrack [18, 16] rfl
  exact ⟨b, hb, h8.trans (by decide), h16.trans (by decide), h35⟩

/-- The number of enumerated key samples equals the count of key samples
in the sample list. -/
theorem keySamples_count (t : Track) :
    (keySamples t).length =
      t.samples.countP (fun s => s.type == "key") := by
  unfold keySamples
  rw [← List.countP_eq_length_filter]
  conv_rhs => rw [← List.enum_map_snd t.samples]
  rw [List.countP_map]
  rfl

/-- The key-frame index list is strictly ascending. -/
theorem keyFrameIndices_sorted (t : Track) :
    List.Pairwise (· < ·) (keyFrameIndices t) := by
  have hs : List.Sublist (keyFrameIndices t)
      (t.samples.enum.map Prod.fst) :=
    (List.filter_sublist _).map Prod.fst
  rw [List.enum_map_fst] at hs
  exact List.Pairwise.sublist hs (List.pairwise_lt_range _)

/-- Membership in the key-frame index list characterizes exactly the
positions of key samples in the sample sequence. -/
theorem keyFrameIndices_mem (t : Track) (i : Nat) :
    i ∈ keyFrameIndices t ↔
      ∃ h : i < t.samples.length, (t.samples.get ⟨i, h⟩).type = "key" := by
  unfold keyFrameIndices keySamples
  constructor
  · intro hmem
    obtain ⟨p, hp, hfst⟩ := List.mem_map.mp hmem
    obtain ⟨henum, hkey⟩ := List.mem_filter.mp hp
    have hget := List.mem_enum_iff_getElem?.mp henum
    obtain ⟨hlt, hval⟩ := List.getElem?_eq_some_iff.mp hget
    subst hfst
    refine ⟨hlt, ?_⟩
    rw [List.get_eq_getElem, hval]
    exact beq_iff_eq.mp hkey
  · rintro ⟨h, hkey⟩
    refine List.mem_map.mpr
      ⟨(i, t.samples.get ⟨i, h⟩), List.mem_filter.mpr ⟨?_, ?_⟩, rfl⟩
    · refine List.mem_enum_iff_getElem?.mpr ?_
      rw [List.get_eq_getElem]
      exact List.getElem?_eq_some_iff.mpr ⟨h, rfl⟩
    · exact beq_iff_eq.mpr hkey

/-- Every defined stsd result is a box of type stsd. -/
theorem stsd_type_eq (t : Track) (b : Box) (h : stsd t = some b) :
    b.type = "stsd" := by
  unfold stsd at h
  obtain ⟨d, _, hb⟩ := Option.map_eq_some'.mp h
  rw [← hb]
  rfl

/-- The chunk-offset box is always of type co64 or stco. -/
theorem stco_type_cases (t : Track) :
    (stco t).type = "co64" ∨ (stco t).type = "stco" := by
  unfold stco
  by_cases h : 0 < t.finalizedChunks.length ∧
      2 ^ 32 ≤ ((last t.finalizedChunks).map Chunk.offset).getD 0
  · rw [if_pos h]
    exact Or.inl rfl
  · rw [if_neg h]
    exact Or.inr rfl

/-- A concrete video track whose samples mix key and delta frames at
positions 0, 1 and 2. -/
def mixedSamplesTrack : Track :=
  ⟨6, 30, [⟨0, 1, 10, "key"⟩, ⟨1, 1, 10, "delta"⟩, ⟨2, 1, 10, "key"⟩],
   [], [], [], some [1], .video 64 48 0 "avc"⟩

/-- C2: for every track whose samples are all key frames the stss box is
absent from the sample-table children, and for every track with at least
one non-key sample the stss box is present with its entry-count field
holding the number of key-frame samples and its entries the strictly
ascending 1-based positions of the key-frame samples. -/
theorem stss_policy (t : Track) :
    (t.samples.all (fun s => s.type == "key") = true →
       stss t = none ∧
       ∀ b, stbl t = some b → ∀ c ∈ b.children, c.type ≠ "stss") ∧
    ((∃ s ∈ t.samples, s.type ≠ "key") →
       ∃ sb, stss t = some sb ∧
         (∀ b, stbl t = some b → sb ∈ b.children) ∧
         sb.type = "stss" ∧
         sb.contents = some
           ([0, 0, 0, 0] ++
            u32 (t.samples.countP fun s => s.type == "key") ++
            ((keyFrameIndices t).map fun i => u32 (i + 1)).flatten) ∧
         List.Pairwise (· < ·) (keyFrameIndices t) ∧
         (∀ i, i ∈ keyFrameIndices t ↔
            ∃ h : i < t.samples.length,
              (t.samples.get ⟨i, h⟩).type = "key")) := by
  constructor
  · intro hall
    have hn : stss t = none := by
      unfold stss
      rw [if_pos hall]
    refine ⟨hn, ?_⟩
    intro b hb c hc
    unfold stbl at hb
    obtain ⟨sd, hsd, hbb⟩ := Option.map_eq_some'.mp hb
    subst hbb
    simp [box, Box.children, hn] at hc
    rcases hc with rfl | rfl | rfl | rfl | rfl
    · rw [stsd_type_eq t c hsd]
      decide
    · rw [show (stts t).type = "stts" from rfl]
      decide
    · rw [show (stsc t).type = "stsc" from rfl]
      decide
    · rw [show (stsz t).type = "stsz" from rfl]
      decide
    · rcases stco_type_cases t with h64 | h32
      · rw [h64]
        decide
      · rw [h32]
        decide
  · rintro ⟨s, hs, hsk⟩
    have hnall : ¬ (t.samples.all (fun x => x.type == "key") = true) := by
      intro hall
      exact hsk (beq_iff_eq.mp (List.all_eq_true.mp hall s hs))
    have hstss : stss t = some (fullBox "stss" 0 0
        (u32 (keySamples t).length ++
         ((keySamples t).map fun p => u32 (p.1 + 1)).flatten) []) := by
      unfold stss
      rw [if_neg hnall]
    refine ⟨_, hstss, ?_, rfl, ?_, keyFrameIndices_sorted t,
      fun i => keyFrameIndices_mem t i⟩
    · intro b hb
      unfold stbl at hb
      obtain ⟨sd, hsd, hbb⟩ := Option.map_eq_some'.mp hb
      subst hbb
      simp [box, Box.children, hstss]
    · unfold keyFrameIndices
      rw [List.map_map, ← keySamples_count t]
      rfl

/-- C2 witness: instantiating the stss policy theorem at an all-key-frame
track, where stss is absent, and at a track with samples key, delta, key,
where the stss entries are the 1-based indices 1 and 3. -/
theorem stss_policy_witness :
    stss avcTestTrack = none ∧
    (∃ sb, stss mixedSamplesTrack = some sb ∧
      sb.contents =
        some [0, 0, 0, 0, 0, 0, 0, 2, 0, 0, 0, 1, 0, 0, 0, 3]) := by
  constructor
  · exact ((stss_policy avcTestTrack).1 (by decide)).1
  · obtain ⟨sb, hsb, _, _, hcont, _, _⟩ :=
      (stss_policy mixedSamplesTrack).2
        ⟨⟨1, 1, 10, "delta"⟩, by decide, by decide⟩
    exact ⟨sb, hsb, hcont.trans (by decide)⟩

/-- A concrete VP9 video track without codec private data. -/
def vp9NoCpTrack : Track :=
  ⟨7, 1000, [], [], [], [], none, .video 320 240 0 "vp9"⟩

/-- C3: for every AVC, HEVC, VP9 or AV1 video track with codecPrivate
present, the configuration child of the video sample description is the
matching avcC, hvcC, vpcC or av1C box whose content bytes equal the
codecPrivate byte sequence exactly; with codecPrivate absent the
configuration box is omitted entirely from the children. -/
theorem codec_config_passthrough (t : Track) (name : String)
    (w h r : Nat) (c : String) (hi : t.info = .video w h r c)
    (hc : c = "avc" ∨ c = "hevc" ∨ c = "vp9" ∨ c = "av1") :
    (∀ cp, t.codecPrivate = some cp →
       (videoSampleDescription name t).map Box.children =
         some [Box.mk
           (match c with
            | "avc" => "avcC"
            | "hevc" => "hvcC"
            | "vp9" => "vpcC"
            | _ => "av1C")
           (some cp) [] none false]) ∧
    (t.codecPrivate = none →
       (videoSampleDescription name t).map Box.children = some []) := by
  have hcodec : t.info.codec = c := by
    rw [hi]
    rfl
  rcases hc with rfl | rfl | rfl | rfl
  · constructor
    · intro cp hcp
      simp [videoSampleDescription, hcodec,
        show VIDEO_CODEC_TO_CONFIGURATION_BOX "avc" = some avcC from rfl,
        avcC, hcp, box, Box.children]
    · intro hcp
      simp [videoSampleDescription, hcodec,
        show VIDEO_CODEC_TO_CONFIGURATION_BOX "avc" = some avcC from rfl,
        avcC, hcp, box, Box.children]
  · constructor
    · intro cp hcp
      simp [videoSampleDescription, hcodec,
        show VIDEO_CODEC_TO_CONFIGURATION_BOX "hevc" = some hvcC from rfl,
        hvcC, hcp, box, Box.children]
    · intro hcp
      simp [videoSampleDescription, hcodec,
        show VIDEO_CODEC_TO_CONFIGURATION_BOX "hevc" = some hvcC from rfl,
        hvcC, hcp, box, Box.children]
  · constructor
    · intro cp hcp
      simp [videoSampleDescription, hcodec,
        show VIDEO_CODEC_TO_CONFIGURATION_BOX "vp9" = some vpcC from rfl,
        vpcC, hcp, box, Box.children]
    · intro hcp
      simp [videoSampleDescription, hcodec,
        show VIDEO_CODEC_TO_CONFIGURATION_BOX "vp9" = some vpcC from rfl,
        vpcC, hcp, box, Box.children]
  · constructor
    · intro cp hcp
      simp [videoSampleDescription, hcodec,
        show VIDEO_CODEC_TO_CONFIGURATION_BOX "av1" = some av1C from rfl,
        av1C, hcp, box, Box.children]
    · intro hcp
      simp [videoSampleDescription, hcodec,
        show VIDEO_CODEC_TO_CONFIGURATION_BOX "av1" = some av1C from rfl,
        av1C, hcp, box, Box.children]

/-- C3 witness: instantiating the configuration passthrough theorem at an
AVC track with codecPrivate bytes 1, 2, 3 and at a VP9 track without
codecPrivate. -/
theorem codec_config_passthrough_witness :
    (videoSampleDescription "avc1" avcTestTrack).map Box.children =
      some [Box.mk "avcC" (some [1, 2, 3]) [] none false] ∧
    (videoSampleDescription "vp09" vp9NoCpTrack).map Box.children =
      some [] := by
  constructor
  · exact (codec_config_passthrough avcTestTrack "avc1" 640 480 0 "avc"
      rfl (Or.inl rfl)).1 [1, 2, 3] rfl
  · exact (codec_config_passthrough vp9NoCpTrack "vp09" 320 240 0 "vp9"
      rfl (Or.inr (Or.inr (Or.inl rfl)))).2 rfl

/-- A concrete AAC audio track without codec private data. -/
def aacNoCpTrack : Track :=
  ⟨8, 44100, [], [], [], [], none, .audio 2 44100 "aac"⟩

/-- C10: the esds construction is defined exactly when codecPrivate is
present; when codecPrivate is absent, esds and hence the AAC sound sample
description have no defined result, while the four video codecs still
produce a sample description, merely omitting the configuration child. -/
theorem esds_requires_codecPrivate (t : Track) :
    ((esds t).isSome ↔ t.codecPrivate.isSome) ∧
    (t.codecPrivate = none →
       esds t = none ∧
       (∀ name ch sr, t.info = .audio ch sr "aac" →
          soundSampleDescription name t = none) ∧
       (∀ name w h r c, t.info = .video w h r c →
          (c = "avc" ∨ c = "hevc" ∨ c = "vp9" ∨ c = "av1") →
          (videoSampleDescription name t).map Box.children = some [])) := by
  constructor
  · unfold esds
    cases hcp : t.codecPrivate <;> simp [hcp]
  · intro hcp
    have he : esds t = none := by
      unfold esds
      rw [hcp]
      rfl
    refine ⟨he, ?_, ?_⟩
    · intro name ch sr hi
      have hcodec : t.info.codec = "aac" := by
        rw [hi]
        rfl
      simp [soundSampleDescription, hcodec,
        show AUDIO_CODEC_TO_CONFIGURATION_BOX "aac" = some esds from rfl,
        he]
    · intro name w h r c hi hc
      have hcodec : t.info.codec = c := by
        rw [hi]
        rfl
      rcases hc with rfl | rfl | rfl | rfl
      · simp [videoSampleDescription, hcodec,
          show VIDEO_CODEC_TO_CONFIGURATION_BOX "avc" = some avcC from rfl,
          avcC, hcp, box, Box.children]
      · simp [videoSampleDescription, hcodec,
          show VIDEO_CODEC_TO_CONFIGURATION_BOX "hevc" = some hvcC from rfl,
          hvcC, hcp, box, Box.children]
      · simp [videoSampleDescription, hcodec,
          show VIDEO_CODEC_TO_CONFIGURATION_BOX "vp9" = some vpcC from rfl,
          vpcC, hcp, box, Box.children]
      · simp [videoSampleDescription, hcodec,
          show VIDEO_CODEC_TO_CONFIGURATION_BOX "av1" = some av1C from rfl,
          av1C, hcp, box, Box.children]

/-- C10 witness: esds is defined at a concrete AAC track with codec
private data, and undefined at a concrete AAC track without it, where the
sound sample description is undefined as well. -/
theorem esds_requires_codecPrivate_witness :
    (esds aacTestTrack).isSome = true ∧
    esds aacNoCpTrack = none ∧
    soundSampleDescription "mp4a" aacNoCpTrack = none := by
  refine ⟨?_, ?_, ?_⟩
  · exact (esds_requires_codecPrivate aacTestTrack).1.mpr (by decide)
  · exact ((esds_requires_codecPrivate aacNoCpTrack).2 rfl).1
  · exact ((esds_requires_codecPrivate aacNoCpTrack).2 rfl).2.1
      "mp4a" 2 44100 rfl

end Mp4Box
